import Mathlib

/-!
Verification development for `export_menu.py` (completrz/menudata).

The script is embedded shallowly: Python dict rows become association
lists over a `PyVal` value type, floats are modelled as exact rationals
(`Rat`; every value any claim touches is an exactly representable
decimal), `json.dumps(..., sort_keys=True, separators=(",",":"))` is an
executable canonical serializer, and `hashlib.sha256` is a full
executable SHA-256 over byte lists.  Filesystem effects of
`write_outputs` are explicit state passing over an `FS` record; the
clock is an explicit `now`/timestamp argument.
-/

namespace ExportMenu

/-- A raw spreadsheet cell value, as `gspread.get_all_records` can
produce it and as the script's `str()` / `isinstance` dispatch sees it:
a string, an int, a float, a bool, or Python `None`. -/
inductive PyVal where
  | str (s : String)
  | int (n : Int)
  | float (q : Rat)
  | bool (b : Bool)
  | none
deriving DecidableEq, Repr

/-- A Python number: the script mixes `int` defaults with parsed
`float`s (e.g. `norm_sort(..., default=0)`), and the distinction is
observable in the JSON serialization (`0` vs `0.0`). -/
inductive PyNum where
  | int (n : Int)
  | float (q : Rat)
deriving DecidableEq, Repr

/-- Numeric value of a `PyNum`, used for Python's cross-type numeric
comparison (`0 == 0.0`, ordering in `sort`/`min`). -/
def PyNum.val : PyNum → Rat
  | .int n => mkRat n 1
  | .float q => q

/-- Python whitespace stripped by `str.strip()` (ASCII range; the
sheet data in scope is ASCII). -/
def isPySpace (c : Char) : Bool :=
  c = ' ' || c = '\t' || c = '\n' || c = '\x0d' || c = '\x0b' || c = '\x0c'

/-- Python `str.strip()`: drop leading and trailing whitespace. -/
def pyStrip (s : String) : String :=
  ⟨((s.data.dropWhile isPySpace).reverse.dropWhile isPySpace).reverse⟩

/-- Python `str.lower()` (ASCII case folding; all tokens in scope are ASCII). -/
def pyLower (s : String) : String :=
  ⟨s.data.map Char.toLower⟩

/-- Decimal digits of a natural number, most significant first. -/
def natDigits (n : Nat) : List Char :=
  (Nat.toDigits 10 n)

/-- Python `repr`/`str` of an `int`. -/
def intRepr (n : Int) : String :=
  if n < 0 then "-" ++ ⟨natDigits n.natAbs⟩ else ⟨natDigits n.natAbs⟩

/-- Fractional decimal digits of `r / d` for `r < d`, by long
division; the fuel bounds the expansion.  Every float in this
development comes from a finite decimal literal, so the expansion
terminates exactly within the fuel. -/
def fracDigitsFuel : Nat → Nat → Nat → List Char
  | 0, _, _ => []
  | fuel + 1, r, d =>
    if r = 0 then []
    else Char.ofNat (48 + r * 10 / d) :: fracDigitsFuel fuel (r * 10 % d) d

/-- Python `repr` of a float, for finite-decimal rationals: sign,
integer part, `.`, fractional digits (`.0` when integral).  This models
`float.__repr__` exactly on values whose shortest decimal form is the
exact decimal expansion (all values in scope); scientific notation for
very large/small magnitudes is outside the model. -/
def floatRepr (q : Rat) : String :=
  let sign := if q.num < 0 then "-" else ""
  let n := q.num.natAbs
  let d := q.den
  let fracs := if n % d = 0 then "0" else String.mk (fracDigitsFuel 30 (n % d) d)
  sign ++ ⟨natDigits (n / d)⟩ ++ "." ++ fracs

/-- Python `str()` of a raw cell value. -/
def pyStr : PyVal → String
  | .str s => s
  | .int n => intRepr n
  | .float q => floatRepr q
  | .bool true => "True"
  | .bool false => "False"
  | .none => "None"

/-- Python `str()` of a number. -/
def PyNum.repr : PyNum → String
  | .int n => intRepr n
  | .float q => floatRepr q

/-- The function `norm_bool` (export_menu.py lines 27–35): `None` → default, bool
passthrough, blank string form → default, else membership of the
stripped lowercased text in the truthy tokens. -/
def norm_bool (v : PyVal) (default : Bool := true) : Bool :=
  match v with
  | .none => default
  | .bool b => b
  | _ =>
    let s := pyLower (pyStrip (pyStr v))
    if s = "" then default
    else s ∈ ["true", "1", "yes", "y", "t"]

/-- One char of a digit run: its value. -/
def digitVal (c : Char) : Nat := c.toNat - 48

/-- Value of a digit run, most significant first. -/
def digitsToNat (cs : List Char) : Nat :=
  cs.foldl (fun a c => a * 10 + digitVal c) 0

/-- Python `float(s)` on an already-stripped string, modelled as an
exact rational.  Grammar: optional sign, digits with an optional `.`
(at least one digit overall), optional exponent `eE[+-]digits`.
`inf`/`nan` literals are outside the `Rat` model and rejected; no claim
touches them.  IEEE rounding is not modelled: the result is the exact
decimal value (all claim inputs are exactly representable). -/
def parseFloat (s : String) : Option Rat :=
  let cs := s.data
  let (neg, cs) :=
    match cs with
    | '-' :: rest => (true, rest)
    | '+' :: rest => (false, rest)
    | _ => (false, cs)
  let (ip, cs) := (cs.takeWhile Char.isDigit, cs.dropWhile Char.isDigit)
  let (fp, cs) :=
    match cs with
    | '.' :: rest => (rest.takeWhile Char.isDigit, rest.dropWhile Char.isDigit)
    | _ => ([], cs)
  if ip = [] ∧ fp = [] then Option.none
  else
    let sgn : Int := if neg then -1 else 1
    let mant : Int := sgn * (digitsToNat (ip ++ fp) : Int)
    match cs with
    | [] => some (mkRat mant (10 ^ fp.length))
    | e :: rest =>
      if e = 'e' ∨ e = 'E' then
        let (eneg, rest) :=
          match rest with
          | '-' :: r => (true, r)
          | '+' :: r => (false, r)
          | _ => (false, rest)
        let (ed, rest) := (rest.takeWhile Char.isDigit, rest.dropWhile Char.isDigit)
        if ed = [] ∨ rest ≠ [] then Option.none
        else
          let ex := digitsToNat ed
          some (if eneg then mkRat mant (10 ^ fp.length * 10 ^ ex)
                else mkRat (mant * 10 ^ ex) (10 ^ fp.length))
      else Option.none

/-- The function `norm_sort` (export_menu.py lines 37–44): stringify and strip the
value; blank → default; parse as float → that number; parse failure →
default.  Total by construction, mirroring the `try/except`. -/
def norm_sort (v : PyVal) (default : PyNum) : PyNum :=
  let s := pyStrip (pyStr v)
  if s = "" then default
  else
    match parseFloat s with
    | some q => .float q
    | Option.none => default

/-- A spreadsheet row as `get_all_records` yields it: a mapping from
column name to raw value, embedded as an association list (dict keys
are unique; lookup finds the first binding). -/
def Row := List (String × PyVal)

/-- Python `dict.get(k, d)`. -/
def Row.get (r : Row) (k : String) (d : PyVal) : PyVal :=
  match r.find? (fun p => p.1 = k) with
  | some p => p.2
  | Option.none => d

/-- Python `k in dict`. -/
def Row.hasKey (r : Row) (k : String) : Bool :=
  r.any (fun p => p.1 = k)

/-- The intermediate item dict built in the `build_menu` loop
(export_menu.py lines 89–96): it still carries `category` and `sort`,
which are dropped from the emitted item objects later. -/
structure RawItem where
  category : String
  name : String
  description : String
  price_display : String
  image_url : String
  sort : PyNum
deriving DecidableEq, Repr

/-- One iteration of the row loop (export_menu.py lines 77–96):
`none` when the row is skipped by a `continue`, otherwise the item dict
appended to `items`. -/
def rowAccept (r : Row) : Option RawItem :=
  if pyStrip (pyStr (r.get "category" (.str ""))) = "" ∨
      pyStrip (pyStr (r.get "item" (.str ""))) = "" then Option.none
  else if !norm_bool (r.get "available" (.bool true)) true then Option.none
  else some
    { category := pyStrip (pyStr (r.get "category" (.str "")))
      name := pyStrip (pyStr (r.get "item" (.str "")))
      description := pyStrip (pyStr (r.get "description" (.str "")))
      price_display := pyStrip (pyStr (r.get "price" (.str "")))
      image_url := pyStrip (pyStr (r.get "image_url" (.str "")))
      sort := norm_sort (r.get "sort" (.int 0)) (.int 0) }

/-- The accepted item dicts, in row order (the loop is a filter-map). -/
def acceptedItems (rows : List Row) : List RawItem :=
  rows.filterMap rowAccept

/-- One step of `grouped.setdefault(it["category"], []).append(it)`:
append to the existing group, or open a new group at the end (dict
insertion order = first-seen category order). -/
def groupInsert (gs : List (String × List RawItem)) (it : RawItem) :
    List (String × List RawItem) :=
  match gs with
  | [] => [(it.category, [it])]
  | (k, l) :: rest =>
    if k = it.category then (k, l ++ [it]) :: rest
    else (k, l) :: groupInsert rest it

/-- The grouping loop (export_menu.py lines 99–101). -/
def grouped (items : List RawItem) : List (String × List RawItem) :=
  items.foldl groupInsert []

/-- Stable insertion of `a` into a sorted list: `a` goes after every
element `b` with `le b a`, matching the stability contract of Python's
`list.sort` for a total preorder `le`. -/
def insortOne (le : α → α → Bool) (a : α) : List α → List α
  | [] => [a]
  | b :: bs => if le b a then b :: insortOne le a bs else a :: b :: bs

/-- Stable sort by left-to-right insertion, modelling Python's stable
`list.sort`/`sorted` with respect to the total preorder `le`. -/
def pySort (le : α → α → Bool) (l : List α) : List α :=
  l.foldl (fun acc x => insortOne le x acc) []

/-- Python string `<` (code-point lexicographic), on the character
lists. -/
def strLT (s t : String) : Bool :=
  decide (s.data < t.data)

/-- Python tuple `<=` on a composite sort key `(number, string)`:
lexicographic, with `s <= t` on strings as `¬ t < s` (code-point
order). -/
def keyLE (a b : Rat × String) : Bool :=
  decide (a.1 < b.1) || (decide (a.1 = b.1) && !strLT b.2 a.2)

/-- The item sort key `(x["sort"], x["name"].lower())` of
export_menu.py line 105, as a comparison. -/
def itemLE (a b : RawItem) : Bool :=
  keyLE (a.sort.val, pyLower a.name) (b.sort.val, pyLower b.name)

/-- Python `min` over a list of numbers with a default for the empty
case: keeps the first element among value-ties. -/
def pyMin (d : PyNum) : List PyNum → PyNum
  | [] => d
  | x :: xs => xs.foldl (fun m y => if y.val < m.val then y else m) x

/-- An emitted item object (export_menu.py lines 110–115): exactly the
four keys written there. -/
structure MenuItem where
  name : String
  description : String
  price_display : String
  image_url : String
deriving DecidableEq, Repr

/-- Projection from the loop dict to the emitted item object. -/
def project (x : RawItem) : MenuItem :=
  { name := x.name
    description := x.description
    price_display := x.price_display
    image_url := x.image_url }

/-- A category object (export_menu.py lines 106–118). -/
structure Category where
  name : String
  sort : PyNum
  items : List MenuItem
deriving DecidableEq, Repr

/-- The category sort key `(c["sort"], c["name"].lower())` of
export_menu.py line 120. -/
def catLE (a b : Category) : Bool :=
  keyLE (a.sort.val, pyLower a.name) (b.sort.val, pyLower b.name)

/-- The grouping/sorting phase of `build_menu` (export_menu.py lines
98–120): group accepted items, sort each group, take the min sort,
project to item objects, then sort the categories. -/
def buildCategories (rows : List Row) : List Category :=
  let items := acceptedItems rows
  let cats := (grouped items).map (fun g =>
    let sorted := pySort itemLE g.2
    { name := g.1
      sort := pyMin (.int 0) (sorted.map (fun x => x.sort))
      items := sorted.map project : Category })
  pySort catLE cats

/-- A JSON value, as produced by the script's dicts/lists and consumed
by `json.dumps`/`json.load`; objects keep dict insertion order. -/
inductive Json where
  | null
  | bool (b : Bool)
  | num (n : PyNum)
  | str (s : String)
  | arr (l : List Json)
  | obj (l : List (String × Json))
deriving Repr

/-- Hex digit character (lowercase). -/
def hexChar (n : Nat) : Char :=
  if n < 10 then Char.ofNat (48 + n) else Char.ofNat (87 + n)

/-- JSON string escaping as `json.dumps(..., ensure_ascii=False)` does
it: escape the quote, the backslash and control characters; everything
else passes through. -/
def escapeChar (c : Char) : List Char :=
  if c = '"' then ['\\', '"']
  else if c = '\\' then ['\\', '\\']
  else if c = '\n' then ['\\', 'n']
  else if c = '\t' then ['\\', 't']
  else if c = '\x0d' then ['\\', 'r']
  else if c = '\x08' then ['\\', 'b']
  else if c = '\x0c' then ['\\', 'f']
  else if c.toNat < 32 then
    ['\\', 'u', '0', '0', hexChar (c.toNat / 16), hexChar (c.toNat % 16)]
  else [c]

/-- A JSON string literal. -/
def jsonStringLit (s : String) : String :=
  "\"" ++ ⟨(s.data.map escapeChar).foldr (· ++ ·) []⟩ ++ "\""

/-- Comma-join, with the compact separator `","` of
`separators=(",", ":")`. -/
def joinComma : List String → String
  | [] => ""
  | [s] => s
  | s :: rest => s ++ "," ++ joinComma rest

/-- String order used for `sort_keys=True` (code-point lexicographic,
as Python compares `str`). -/
def strLE (s t : String) : Bool :=
  !strLT t s

mutual

/-- Canonical serialization, `json.dumps(obj, ensure_ascii=False,
sort_keys=True, separators=(",", ":"))`: object keys sorted, no
whitespace.  Each object member is serialized and the members are then
ordered by key; this produces the same string as sorting the items
first, since the key sort never inspects the values and is stable. -/
def Json.dump : Json → String
  | .null => "null"
  | .bool true => "true"
  | .bool false => "false"
  | .num n => n.repr
  | .str s => jsonStringLit s
  | .arr l => "[" ++ joinComma (Json.dumpList l) ++ "]"
  | .obj l =>
    "\x7b" ++
      joinComma ((pySort (fun a b => strLE a.1 b.1) (Json.dumpPairs l)).map
        (fun p => jsonStringLit p.1 ++ ":" ++ p.2)) ++
      "\x7d"

/-- Serialization of the elements of a JSON array. -/
def Json.dumpList : List Json → List String
  | [] => []
  | x :: xs => Json.dump x :: Json.dumpList xs

/-- Serialization of the members of a JSON object, keys kept. -/
def Json.dumpPairs : List (String × Json) → List (String × String)
  | [] => []
  | (k, v) :: xs => (k, Json.dump v) :: Json.dumpPairs xs

end

/-- UTF-8 bytes of one character. -/
def utf8Char (c : Char) : List Nat :=
  let n := c.toNat
  if n < 128 then [n]
  else if n < 2048 then [192 + n / 64, 128 + n % 64]
  else if n < 65536 then [224 + n / 4096, 128 + (n / 64) % 64, 128 + n % 64]
  else [240 + n / 262144, 128 + (n / 4096) % 64, 128 + (n / 64) % 64, 128 + n % 64]

/-- UTF-8 encoding of a string, `.encode("utf-8")`. -/
def utf8 (s : String) : List Nat :=
  (s.data.map utf8Char).foldr (· ++ ·) []

/-- Truncation to a 32-bit word. -/
def w32 (x : Nat) : Nat := x % 4294967296

/-- Right rotation of a 32-bit word. -/
def rotr (x n : Nat) : Nat := w32 ((x >>> n) ||| (x <<< (32 - n)))

/-- The 64 SHA-256 round constants (FIPS 180-4), in decimal. -/
def shaK : List Nat :=
  [1116352408, 1899447441, 3049323471, 3921009573,
   961987163, 1508970993, 2453635748, 2870763221,
   3624381080, 310598401, 607225278, 1426881987,
   1925078388, 2162078206, 2614888103, 3248222580,
   3835390401, 4022224774, 264347078, 604807628,
   770255983, 1249150122, 1555081692, 1996064986,
   2554220882, 2821834349, 2952996808, 3210313671,
   3336571891, 3584528711, 113926993, 338241895,
   666307205, 773529912, 1294757372, 1396182291,
   1695183700, 1986661051, 2177026350, 2456956037,
   2730485921, 2820302411, 3259730800, 3345764771,
   3516065817, 3600352804, 4094571909, 275423344,
   430227734, 506948616, 659060556, 883997877,
   958139571, 1322822218, 1537002063, 1747873779,
   1955562222, 2024104815, 2227730452, 2361852424,
   2428436474, 2756734187, 3204031479, 3329325298]

/-- The eight initial SHA-256 state words (FIPS 180-4), in decimal. -/
def shaH0 : List Nat :=
  [1779033703, 3144134277, 1013904242, 2773480762,
   1359893119, 2600822924, 528734635, 1541459225]

/-- SHA-256 padding: append `0x80`, zeros, then the 64-bit big-endian
bit length, to a multiple of 64 bytes. -/
def shaPad (msg : List Nat) : List Nat :=
  let len := msg.length
  let zeros := (119 - len % 64) % 64
  msg ++ 0x80 :: List.replicate zeros 0 ++
    ([56, 48, 40, 32, 24, 16, 8, 0].map (fun s => ((8 * len) >>> s) % 256))

/-- Four big-endian bytes to a 32-bit word (tail shorter than 4 cannot
occur on padded input). -/
def chunk4 : List Nat → List Nat
  | a :: b :: c :: d :: rest => (a * 16777216 + b * 65536 + c * 256 + d) :: chunk4 rest
  | _ => []

/-- Split a word list into 16-word blocks (a shorter tail cannot occur
on padded input). -/
def chunk16 : List Nat → List (List Nat)
  | [] => []
  | a1 :: a2 :: a3 :: a4 :: a5 :: a6 :: a7 :: a8 ::
    a9 :: a10 :: a11 :: a12 :: a13 :: a14 :: a15 :: a16 :: rest =>
    [a1, a2, a3, a4, a5, a6, a7, a8, a9, a10, a11, a12, a13, a14, a15, a16] ::
      chunk16 rest
  | l => [l]

/-- Message-schedule step: from the previous 16 words, the next word. -/
def schedNext (w : List Nat) : Nat :=
  let g := fun i => w.getD i 0
  let s0 := (rotr (g 1) 7) ^^^ (rotr (g 1) 18) ^^^ ((g 1) >>> 3)
  let s1 := (rotr (g 14) 17) ^^^ (rotr (g 14) 19) ^^^ ((g 14) >>> 10)
  w32 (g 0 + s0 + g 9 + s1)

/-- Extend a 16-word block to the 64-word message schedule. -/
def schedule (win : List Nat) : Nat → List Nat
  | 0 => []
  | n + 1 => schedNext win :: schedule (win.drop 1 ++ [schedNext win]) n

/-- One SHA-256 compression round on the 8-word working state. -/
def shaRound (st : List Nat) (kw : Nat × Nat) : List Nat :=
  match st with
  | [a, b, c, d, e, f, g, h] =>
    let s1 := (rotr e 6) ^^^ (rotr e 11) ^^^ (rotr e 25)
    let ch := (e &&& f) ^^^ ((4294967295 - e) &&& g)
    let t1 := w32 (h + s1 + ch + kw.1 + kw.2)
    let s0 := (rotr a 2) ^^^ (rotr a 13) ^^^ (rotr a 22)
    let mj := (a &&& b) ^^^ (a &&& c) ^^^ (b &&& c)
    let t2 := w32 (s0 + mj)
    [w32 (t1 + t2), a, b, c, w32 (d + t1), e, f, g]
  | s => s

/-- Compress one 16-word block into the hash state. -/
def shaCompress (h : List Nat) (block : List Nat) : List Nat :=
  let ws := block ++ schedule block 48
  let fin := (shaK.zip ws).foldl shaRound h
  List.zipWith (fun x y => w32 (x + y)) h fin

/-- SHA-256 of a byte list, as the eight 32-bit state words. -/
def sha256 (msg : List Nat) : List Nat :=
  (chunk16 (chunk4 (shaPad msg))).foldl shaCompress shaH0

/-- Lowercase hex of one 32-bit word. -/
def wordHex (w : Nat) : List Char :=
  [28, 24, 20, 16, 12, 8, 4, 0].map (fun s => hexChar ((w >>> s) % 16))

/-- Digest words to the lowercase hex string of `hexdigest()`. -/
def hexDigest (ws : List Nat) : String :=
  ⟨(ws.map wordHex).foldr (· ++ ·) []⟩

/-- The function `stable_hash` (export_menu.py lines 23–25): canonical
serialization (sorted keys, compact separators, UTF-8), SHA-256,
hexadecimal digest. -/
def stable_hash (obj : Json) : String :=
  hexDigest (sha256 (utf8 obj.dump))

/-- The required header names (export_menu.py line 21). -/
def REQUIRED_HEADERS : List String :=
  ["category", "item", "price", "description", "available", "sort", "image_url"]

/-- The payload of the `RuntimeError` raised by `validate_headers`: the
missing column names and the full expected header list, both included
in the message. -/
structure SchemaError where
  missing : List String
  expected : List String
deriving DecidableEq, Repr

/-- The function `validate_headers` (export_menu.py lines 61–71): no
rows → no check; otherwise the required headers absent from the first
row's key set, raised if any. -/
def validate_headers (rows : List Row) : Option SchemaError :=
  match rows with
  | [] => Option.none
  | r :: _ =>
    let missing := REQUIRED_HEADERS.filter (fun h => !r.hasKey h)
    if missing = [] then Option.none else some ⟨missing, REQUIRED_HEADERS⟩

/-- The document built by `build_menu`: the timestamp, the category
list, and the fingerprint attached after hashing. -/
structure Menu where
  generated_at : String
  categories : List Category
  hash : String
deriving DecidableEq, Repr

/-- JSON form of an emitted item object, with the dict insertion order
of export_menu.py lines 110–115. -/
def itemJson (it : MenuItem) : Json :=
  .obj [("name", .str it.name), ("description", .str it.description),
        ("price_display", .str it.price_display), ("image_url", .str it.image_url)]

/-- JSON form of a category object (export_menu.py lines 106–118). -/
def catJson (c : Category) : Json :=
  .obj [("name", .str c.name), ("sort", .num c.sort),
        ("items", .arr (c.items.map itemJson))]

/-- The document dict at the moment `stable_hash` is applied
(export_menu.py line 123): `generated_at` and `categories`, no `hash`
key yet. -/
def menuJsonNoHash (generated_at : String) (cats : List Category) : Json :=
  .obj [("generated_at", .str generated_at),
        ("categories", .arr (cats.map catJson))]

/-- The full document dict after `menu["hash"]` is attached
(export_menu.py line 124), as written to disk. -/
def menuJsonFull (m : Menu) : Json :=
  .obj [("generated_at", .str m.generated_at),
        ("categories", .arr (m.categories.map catJson)),
        ("hash", .str m.hash)]

/-- The function `build_menu` (export_menu.py lines 73–125), with the
clock made explicit: validate headers, normalize and aggregate, then
hash the document (including `generated_at`, excluding `hash`) and
attach the digest. -/
def build_menu (rows : List Row) (now : String) : Except SchemaError Menu :=
  match validate_headers rows with
  | some e => .error e
  | Option.none =>
    let cats := buildCategories rows
    .ok { generated_at := now
          categories := cats
          hash := stable_hash (menuJsonNoHash now cats) }

/-- The observable state of the latest-state file when
`load_existing_hash` reads it: absent, unreadable/IO error, parse
failure, or a successfully parsed JSON value.  Reading and parsing are
the filesystem/`json.load` boundary, kept abstract. -/
inductive LatestFile where
  | missing
  | unreadable
  | malformed
  | content (j : Json)

/-- Python `old.get("hash")`: a key lookup on a dict, `None` on a
missing key; on a non-dict value `.get` raises, which the caller's
`except` turns into `None` as well. -/
def jsonGetHash : Json → Option Json
  | .obj l =>
    match l.find? (fun p => p.1 = "hash") with
    | some p => some p.2
    | Option.none => Option.none
  | _ => Option.none

/-- The function `load_existing_hash` (export_menu.py lines 127–135):
missing, unreadable or malformed file → `None`, never an exception;
otherwise the parsed document's `hash` entry. -/
def load_existing_hash : LatestFile → Option Json
  | .missing => Option.none
  | .unreadable => Option.none
  | .malformed => Option.none
  | .content j => jsonGetHash j

/-- Python `old_hash == menu["hash"]` where the right side is a `str`:
true exactly on an equal string (no cross-type equality with `str`). -/
def hashMatches (old : Option Json) (h : String) : Bool :=
  match old with
  | some (.str s) => s = h
  | _ => false

/-- The filesystem as `write_outputs` touches it: the two directories,
the latest-state file, and the snapshot directory contents (a name ↦
content store; a same-name write overwrites). -/
structure FS where
  outDirExists : Bool
  snapDirExists : Bool
  latest : LatestFile
  snapshots : List (String × Json)

/-- Writing a snapshot file: `open(..., "w")` replaces any same-name
file. -/
def writeSnap (s : List (String × Json)) (name : String) (j : Json) :
    List (String × Json) :=
  (name, j) :: s.filter (fun p => p.1 ≠ name)

/-- The function `write_outputs` (export_menu.py lines 137–155), with
the strftime snapshot name passed in as `ts`: create both directories,
compare the stored fingerprint, and either report a no-op (`false`) or
overwrite `latest.json` and write one snapshot (`true`).  On-disk JSON
is modelled up to whitespace (the script pretty-prints with
`indent=2`). -/
def write_outputs (fs : FS) (m : Menu) (ts : String) : FS × Bool :=
  let fs := { fs with outDirExists := true, snapDirExists := true }
  let old_hash := load_existing_hash fs.latest
  if hashMatches old_hash m.hash then (fs, false)
  else
    let doc := menuJsonFull m
    let fs := { fs with latest := .content doc }
    let fs := { fs with snapshots := writeSnap fs.snapshots (ts ++ ".json") doc }
    (fs, true)

/-- The key list of a JSON object (dict insertion order). -/
def keysOf : Json → List String
  | .obj l => l.map (fun p => p.1)
  | _ => []

/-- A convenience row constructor with all seven required columns, all
string-valued, as `get_all_records` produces for text cells. -/
def mkRow (cat item price desc avail srt img : String) : Row :=
  [("category", .str cat), ("item", .str item), ("price", .str price),
   ("description", .str desc), ("available", .str avail), ("sort", .str srt),
   ("image_url", .str img)]

/-- The spec's ordering example: one category, sort values `[2, 1, 1]`
with item names `["B", "A", "C"]`. -/
def exampleRows : List Row :=
  [mkRow "Drinks" "B" "2" "" "" "2" "",
   mkRow "Drinks" "A" "1" "" "" "1" "",
   mkRow "Drinks" "C" "3" "" "" "1" ""]

/-- Rows with a genuine composite-key tie (names `"a"` and `"A"` lower
to the same string, equal sorts), to witness sort stability. -/
def tieRows : List Row :=
  [mkRow "X" "a" "1" "first" "" "1" "",
   mkRow "X" "A" "2" "second" "" "1" ""]

/-- Rows whose categories differ only by case: distinct groups whose
composite keys tie, to witness first-seen category order. -/
def caseRows : List Row :=
  [mkRow "b" "x" "1" "" "" "1" "",
   mkRow "B" "y" "2" "" "" "1" ""]

/-- One accepted row whose raw price has surrounding whitespace. -/
def priceRow : Row :=
  mkRow "Drinks" "Tea" " 5 " "" "" "1" ""

section SortLemmas

variable {α : Type _} {le : α → α → Bool}

/-- Inserting into a locally sorted list keeps it locally sorted, for a
total comparison. -/
theorem chain'_insortOne (htot : ∀ a b, le a b = true ∨ le b a = true) (a : α) :
    ∀ l : List α, l.Chain' (fun x y => le x y = true) →
      (insortOne le a l).Chain' (fun x y => le x y = true) := by
  intro l
  induction l with
  | nil => intro _; simp [insortOne]
  | cons b bs ih =>
    intro hch
    have hbs : bs.Chain' (fun x y => le x y = true) := hch.tail
    by_cases hba : le b a = true
    · have hrec := ih hbs
      simp only [insortOne, hba, if_true]
      rw [List.chain'_cons']
      refine ⟨?_, hrec⟩
      intro y hy
      cases bs with
      | nil => simp [insortOne] at hy; subst hy; exact hba
      | cons c cs =>
        by_cases hca : le c a = true
        · simp [insortOne, hca] at hy
          subst hy
          exact (List.chain'_cons.mp hch).1
        · simp [insortOne, hca] at hy
          subst hy
          exact hba
    · have hab : le a b = true := (htot a b).resolve_right hba
      rw [Bool.not_eq_true] at hba
      simp only [insortOne, hba, Bool.false_eq_true, if_false]
      rw [List.chain'_cons]
      exact ⟨hab, hch⟩

/-- Membership through insertion. -/
theorem mem_insortOne (a x : α) :
    ∀ l : List α, x ∈ insortOne le a l ↔ x = a ∨ x ∈ l := by
  intro l
  induction l with
  | nil => simp [insortOne]
  | cons b bs ih =>
    by_cases hba : le b a = true <;> simp [insortOne, hba, ih] <;> try tauto

/-- Insertion grows the length by one. -/
theorem length_insortOne (a : α) :
    ∀ l : List α, (insortOne le a l).length = l.length + 1 := by
  intro l
  induction l with
  | nil => simp [insortOne]
  | cons b bs ih =>
    by_cases hba : le b a = true <;> simp [insortOne, hba, ih]

/-- The sort's output is locally sorted, for a total comparison. -/
theorem chain'_pySort (htot : ∀ a b, le a b = true ∨ le b a = true)
    (l : List α) : (pySort le l).Chain' (fun x y => le x y = true) := by
  suffices h : ∀ (l acc : List α), acc.Chain' (fun x y => le x y = true) →
      (l.foldl (fun acc x => insortOne le x acc) acc).Chain'
        (fun x y => le x y = true) by
    exact h l [] (by simp)
  intro l
  induction l with
  | nil => intro acc hacc; simpa using hacc
  | cons x xs ih =>
    intro acc hacc
    exact ih _ (chain'_insortOne htot x acc hacc)

/-- The sort permutes membership. -/
theorem mem_pySort (x : α) (l : List α) : x ∈ pySort le l ↔ x ∈ l := by
  suffices h : ∀ (l acc : List α),
      (x ∈ l.foldl (fun acc x => insortOne le x acc) acc ↔ x ∈ acc ∨ x ∈ l) by
    simpa using h l []
  intro l
  induction l with
  | nil => intro acc; simp
  | cons y ys ih =>
    intro acc
    rw [List.foldl_cons, ih, mem_insortOne]
    simp
    tauto

/-- The sort preserves length. -/
theorem length_pySort (l : List α) : (pySort le l).length = l.length := by
  suffices h : ∀ (l acc : List α),
      (l.foldl (fun acc x => insortOne le x acc) acc).length =
        acc.length + l.length by
    simpa using h l []
  intro l
  induction l with
  | nil => intro acc; simp
  | cons y ys ih =>
    intro acc
    rw [List.foldl_cons, ih, length_insortOne]
    simp only [List.length_cons]
    omega

end SortLemmas

/-- The running fold of Python `min` stays in the candidate set. -/
theorem foldlMin_mem : ∀ (xs : List PyNum) (x : PyNum),
    xs.foldl (fun m y => if y.val < m.val then y else m) x ∈ x :: xs := by
  intro xs
  induction xs with
  | nil => intro x; simp
  | cons y ys ih =>
    intro x
    rw [List.foldl_cons]
    have h := ih (if y.val < x.val then y else x)
    have hin : (if y.val < x.val then y else x) ∈ x :: y :: ys := by
      by_cases hc : y.val < x.val <;> simp [hc]
    rcases List.mem_cons.mp h with h1 | h1
    · rw [h1]; exact hin
    · exact List.mem_cons_of_mem _ (List.mem_cons_of_mem _ h1)

/-- The running fold of Python `min` is a lower bound of the
candidates. -/
theorem foldlMin_le : ∀ (xs : List PyNum) (x : PyNum), ∀ y ∈ x :: xs,
    (xs.foldl (fun m z => if z.val < m.val then z else m) x).val ≤ y.val := by
  intro xs
  induction xs with
  | nil => intro x y hy; simp at hy; subst hy; simp
  | cons z zs ih =>
    intro x y hy
    rw [List.foldl_cons]
    have hstep_x : (if z.val < x.val then z else x).val ≤ x.val := by
      by_cases hc : z.val < x.val <;> simp [hc]; exact le_of_lt hc
    have hstep_z : (if z.val < x.val then z else x).val ≤ z.val := by
      by_cases hc : z.val < x.val <;> simp [hc]; exact le_of_not_lt hc
    have hhead := ih (if z.val < x.val then z else x) _ (List.mem_cons_self _ _)
    rcases List.mem_cons.mp hy with rfl | hy2
    · exact le_trans hhead hstep_x
    · rcases List.mem_cons.mp hy2 with rfl | hy3
      · exact le_trans hhead hstep_z
      · exact ih _ _ (List.mem_cons_of_mem _ hy3)

/-- Python `min` of a nonempty list is attained. -/
theorem pyMin_mem (d x : PyNum) (xs : List PyNum) :
    pyMin d (x :: xs) ∈ x :: xs :=
  foldlMin_mem xs x

/-- Python `min` of a nonempty list is a lower bound. -/
theorem pyMin_le (d x : PyNum) (xs : List PyNum) :
    ∀ y ∈ x :: xs, (pyMin d (x :: xs)).val ≤ y.val :=
  foldlMin_le xs x

/-- The composite-key comparison is total. -/
theorem keyLE_total (a b : Rat × String) : keyLE a b = true ∨ keyLE b a = true := by
  obtain ⟨a1, a2⟩ := a
  obtain ⟨b1, b2⟩ := b
  unfold keyLE strLT
  simp only
  rcases lt_trichotomy a1 b1 with h | h | h
  · left; simp [h]
  · subst h
    by_cases hs : b2.data < a2.data
    · right; simp [lt_asymm hs]
    · left; simp [hs]
  · right; simp [h]

/-- The item comparison is total. -/
theorem itemLE_total (a b : RawItem) : itemLE a b = true ∨ itemLE b a = true :=
  keyLE_total _ _

/-- The category comparison is total. -/
theorem catLE_total (a b : Category) : catLE a b = true ∨ catLE b a = true :=
  keyLE_total _ _

/-- The key order used by `sort_keys=True` is total. -/
theorem strLE_total (s t : String) : strLE s t = true ∨ strLE t s = true := by
  unfold strLE strLT
  by_cases h : t.data < s.data
  · right; simp [lt_asymm h]
  · left; simp [h]

/-- Every group built by the grouping loop is nonempty and only holds
items of its own category. -/
theorem groupInsert_inv (it : RawItem) :
    ∀ gs : List (String × List RawItem),
      (∀ g ∈ gs, g.2 ≠ [] ∧ ∀ x ∈ g.2, x.category = g.1) →
      ∀ g ∈ groupInsert gs it, g.2 ≠ [] ∧ ∀ x ∈ g.2, x.category = g.1 := by
  intro gs
  induction gs with
  | nil =>
    intro _ g hg
    simp [groupInsert] at hg
    subst hg
    refine ⟨by simp, ?_⟩
    intro x hx
    simp at hx
    subst hx
    rfl
  | cons p ps ih =>
    intro hinv g hg
    obtain ⟨k, lst⟩ := p
    by_cases hk : k = it.category
    · subst hk
      simp only [groupInsert, if_pos rfl] at hg
      rcases List.mem_cons.mp hg with rfl | hg2
      · refine ⟨by simp, ?_⟩
        intro x hx
        rcases List.mem_append.mp hx with hx1 | hx1
        · exact (hinv (it.category, lst) (List.mem_cons_self _ _)).2 x hx1
        · simp at hx1; subst hx1; rfl
      · exact hinv g (List.mem_cons_of_mem _ hg2)
    · simp only [groupInsert, if_neg hk] at hg
      rcases List.mem_cons.mp hg with rfl | hg2
      · exact hinv _ (List.mem_cons_self _ _)
      · exact ih (fun g' hg' => hinv g' (List.mem_cons_of_mem _ hg')) g hg2

/-- Invariant of the whole grouping loop. -/
theorem grouped_inv (items : List RawItem) :
    ∀ g ∈ grouped items, g.2 ≠ [] ∧ ∀ x ∈ g.2, x.category = g.1 := by
  suffices h : ∀ (l : List RawItem) (gs : List (String × List RawItem)),
      (∀ g ∈ gs, g.2 ≠ [] ∧ ∀ x ∈ g.2, x.category = g.1) →
      ∀ g ∈ l.foldl groupInsert gs, g.2 ≠ [] ∧ ∀ x ∈ g.2, x.category = g.1 by
    exact fun g hg => h items [] (by simp) g hg
  intro l
  induction l with
  | nil => intro gs hgs; simpa using hgs
  | cons it its ih =>
    intro gs hgs
    rw [List.foldl_cons]
    exact ih _ (groupInsert_inv it gs hgs)

/-- One compression round keeps the eight-word state shape. -/
theorem shaRound_length (st : List Nat) (kw : Nat × Nat) (h : st.length = 8) :
    (shaRound st kw).length = 8 := by
  rcases st with _ | ⟨a, _ | ⟨b, _ | ⟨c, _ | ⟨d, _ | ⟨e, _ | ⟨f, _ | ⟨g, _ | ⟨h8, _ | ⟨i, t⟩⟩⟩⟩⟩⟩⟩⟩⟩ <;>
    simp_all [shaRound]

/-- All 64 rounds keep the eight-word state shape. -/
theorem foldl_shaRound_length (l : List (Nat × Nat)) :
    ∀ st : List Nat, st.length = 8 → (l.foldl shaRound st).length = 8 := by
  induction l with
  | nil => intro st h; simpa using h
  | cons kw kws ih =>
    intro st h
    rw [List.foldl_cons]
    exact ih _ (shaRound_length st kw h)

/-- Block compression keeps the eight-word state shape. -/
theorem shaCompress_length (h : List Nat) (b : List Nat) (hl : h.length = 8) :
    (shaCompress h b).length = 8 := by
  unfold shaCompress
  rw [List.length_zipWith, hl, foldl_shaRound_length _ _ hl]
  omega

/-- The SHA-256 state is always eight words. -/
theorem sha256_length (msg : List Nat) : (sha256 msg).length = 8 := by
  unfold sha256
  suffices h : ∀ (bs : List (List Nat)) (st : List Nat), st.length = 8 →
      (bs.foldl shaCompress st).length = 8 by
    exact h _ shaH0 rfl
  intro bs
  induction bs with
  | nil => intro st h; simpa using h
  | cons b bss ih =>
    intro st h
    rw [List.foldl_cons]
    exact ih _ (shaCompress_length st b h)

/-- One word prints as eight hex characters. -/
theorem wordHex_length (w : Nat) : (wordHex w).length = 8 := by
  simp [wordHex]

/-- The hex digest has two characters per byte. -/
theorem hexDigest_length (ws : List Nat) : (hexDigest ws).length = 8 * ws.length := by
  unfold hexDigest
  show ((ws.map wordHex).foldr (· ++ ·) []).length = 8 * ws.length
  induction ws with
  | nil => rfl
  | cons w wss ih =>
    simp only [List.map_cons, List.foldr_cons, List.length_append, ih,
      wordHex_length, List.length_cons]
    ring

/-- Every fingerprint is a 64-character hex string. -/
theorem stable_hash_length (o : Json) : (stable_hash o).length = 64 := by
  unfold stable_hash
  rw [hexDigest_length, sha256_length]

/-- Stripping produces a contiguous piece of the original string. -/
theorem pyStrip_isInfix (s : String) : List.IsInfix (pyStrip s).data s.data := by
  unfold pyStrip
  show List.IsInfix ((s.data.dropWhile isPySpace).reverse.dropWhile isPySpace).reverse s.data
  have h1 : List.IsSuffix (s.data.dropWhile isPySpace) s.data :=
    List.dropWhile_suffix _
  have h2 : List.IsSuffix
      ((s.data.dropWhile isPySpace).reverse.dropWhile isPySpace)
      (s.data.dropWhile isPySpace).reverse :=
    List.dropWhile_suffix _
  have h3 : List.IsPrefix
      (((s.data.dropWhile isPySpace).reverse.dropWhile isPySpace).reverse)
      (s.data.dropWhile isPySpace) := by
    rw [← List.reverse_suffix, List.reverse_reverse]
    exact h2
  exact h3.isInfix.trans h1.isInfix

/-- Lowercasing preserves blankness. -/
theorem pyLower_eq_empty_iff (s : String) : pyLower s = "" ↔ s = "" := by
  constructor
  · intro h
    have hd : (pyLower s).data = [] := by rw [h]
    have : s.data.map Char.toLower = [] := hd
    have hnil : s.data = [] := List.map_eq_nil_iff.mp this
    cases s
    simp_all
  · intro h
    rw [h]
    rfl

/-- The stored-fingerprint comparison succeeds exactly on an equal
string. -/
theorem hashMatches_iff (old : Option Json) (h : String) :
    hashMatches old h = true ↔ old = some (.str h) := by
  cases old with
  | none => simp [hashMatches]
  | some j => cases j <;> simp [hashMatches]

/-- C8: `norm_sort` never raises for any input (it is a total
function): a blank or absent value yields the default, an input
parseable as a floating-point number yields that number, and any parse
failure yields the default; in particular `norm_sort "abc" = default`,
`norm_sort "3.5" = 3.5`, and `norm_sort "" = default`. -/
theorem norm_sort_total_spec :
    (∀ (v : PyVal) (d : PyNum), pyStrip (pyStr v) = "" → norm_sort v d = d) ∧
    (∀ (v : PyVal) (d : PyNum) (q : Rat),
      parseFloat (pyStrip (pyStr v)) = some q → norm_sort v d = .float q) ∧
    (∀ (v : PyVal) (d : PyNum),
      parseFloat (pyStrip (pyStr v)) = Option.none → norm_sort v d = d) ∧
    (∀ d : PyNum, norm_sort (.str "abc") d = d) ∧
    (norm_sort (.str "3.5") (.float 0) = .float (mkRat 7 2)) ∧
    (∀ d : PyNum, norm_sort (.str "") d = d) := by
  refine ⟨?_, ?_, ?_, fun d => rfl, by decide, fun d => rfl⟩
  · intro v d h
    simp [norm_sort, h]
  · intro v d q h
    by_cases hs : pyStrip (pyStr v) = ""
    · rw [hs] at h
      rw [show parseFloat "" = (Option.none : Option Rat) from rfl] at h
      exact Option.noConfusion h
    · simp [norm_sort, hs, h]
  · intro v d h
    by_cases hs : pyStrip (pyStr v) = ""
    · simp [norm_sort, hs]
    · simp [norm_sort, hs, h]

/-- Witness for C8 at concrete inputs: a whitespace-only cell, a
parseable decimal with surrounding whitespace, and an unparseable
token. -/
theorem norm_sort_total_spec_witness :
    norm_sort (.str "  ") (.int 3) = .int 3 ∧
    norm_sort (.str " 2.5 ") (.int 0) = .float (mkRat 5 2) ∧
    norm_sort (.str "x7") (.int 1) = .int 1 :=
  ⟨norm_sort_total_spec.1 _ _ (by decide),
   norm_sort_total_spec.2.1 _ _ _ (by decide),
   norm_sort_total_spec.2.2.1 _ _ (by decide)⟩

/-- C4: a row is excluded (the loop body yields nothing) exactly when
its trimmed category or item name is empty, or its `available` field
normalizes to false; `norm_bool` maps `None` to the default, passes
booleans through, maps a blank string form to the default, and
otherwise tests the stripped lowercased text against the truthy tokens;
an absent `available` key reaches `norm_bool` as Python `True`. -/
theorem row_exclusion_spec :
    (∀ rows : List Row, acceptedItems rows = rows.filterMap rowAccept) ∧
    (∀ r : Row, rowAccept r = Option.none ↔
      (pyStrip (pyStr (r.get "category" (.str ""))) = "" ∨
       pyStrip (pyStr (r.get "item" (.str ""))) = "" ∨
       norm_bool (r.get "available" (.bool true)) true = false)) ∧
    (∀ d : Bool, norm_bool .none d = d) ∧
    (∀ b d : Bool, norm_bool (.bool b) d = b) ∧
    (∀ (v : PyVal) (d : Bool), pyStrip (pyStr v) = "" → norm_bool v d = d) ∧
    (∀ (v : PyVal) (d : Bool), v ≠ .none → (∀ b, v ≠ .bool b) →
      pyStrip (pyStr v) ≠ "" →
      (norm_bool v d = true ↔
        pyLower (pyStrip (pyStr v)) ∈ ["true", "1", "yes", "y", "t"])) ∧
    (∀ r : Row, r.hasKey "available" = false →
      r.get "available" (.bool true) = .bool true) := by
  refine ⟨fun _ => rfl, ?_, fun _ => rfl, fun _ _ => rfl, ?_, ?_, ?_⟩
  · intro r
    unfold rowAccept
    by_cases h1 : pyStrip (pyStr (r.get "category" (.str ""))) = "" ∨
        pyStrip (pyStr (r.get "item" (.str ""))) = ""
    · simp only [h1, if_true]
      tauto
    · by_cases h2 : norm_bool (r.get "available" (.bool true)) true = false
      · simp [h1, h2]
      · rw [Bool.not_eq_false] at h2
        simp [h1, h2]
  · intro v d h
    cases v with
    | str s => simp [norm_bool, (pyLower_eq_empty_iff _).mpr h]
    | int n => simp [norm_bool, (pyLower_eq_empty_iff _).mpr h]
    | float q => simp [norm_bool, (pyLower_eq_empty_iff _).mpr h]
    | bool b => cases b <;> exact absurd h (by decide)
    | none => rfl
  · intro v d hn hb h
    have hlow : pyLower (pyStrip (pyStr v)) ≠ "" :=
      fun hc => h ((pyLower_eq_empty_iff _).mp hc)
    cases v with
    | str s => simp [norm_bool, hlow]
    | int n => simp [norm_bool, hlow]
    | float q => simp [norm_bool, hlow]
    | bool b => exact absurd rfl (hb b)
    | none => exact absurd rfl hn
  · intro r h
    unfold Row.get
    have hf : r.find? (fun p => p.1 = "available") = Option.none := by
      rw [List.find?_eq_none]
      intro x hx hc
      have : r.any (fun p => p.1 = "available") = true :=
        List.any_eq_true.mpr ⟨x, hx, hc⟩
      rw [Row.hasKey] at h
      rw [h] at this
      cases this
    rw [hf]

/-- Witness for C4 at concrete inputs: a blank-category row is
excluded, a whitespace-only `available` keeps the default, and a
non-blank token decides availability by membership. -/
theorem row_exclusion_spec_witness :
    rowAccept (mkRow "" "x" "1" "" "" "" "") = Option.none ∧
    norm_bool (.str " ") true = true ∧
    (norm_bool (.str "Y") false = true ↔
      pyLower (pyStrip (pyStr (.str "Y"))) ∈ ["true", "1", "yes", "y", "t"]) :=
  ⟨(row_exclusion_spec.2.1 _).mpr (Or.inl (by decide)),
   row_exclusion_spec.2.2.2.2.1 _ _ (by decide),
   row_exclusion_spec.2.2.2.2.2.1 _ _ (by decide) (by intro b; cases b <;> decide)
     (by decide)⟩

/-- C3 counterexample: in the document built from one accepted row, the
emitted item object carries exactly the four keys `name`,
`description`, `price_display`, `image_url` — `sort` is not among them,
contradicting the claimed five-field item shape. -/
theorem item_object_lacks_sort_cex :
    ((build_menu [mkRow "Drinks" "Tea" "5" "" "" "1" ""]
        "2024-01-01T00:00:00+00:00").toOption.map
      (fun m => m.categories.map (fun c => c.items.map (fun it => keysOf (itemJson it))))) =
      some [[["name", "description", "price_display", "image_url"]]] ∧
    ¬ ("sort" ∈ ["name", "description", "price_display", "image_url"]) := by
  exact ⟨by decide, by decide⟩

/-- C3 amended: every item object emitted inside a category of the
built document has exactly the fields `name`, `description`,
`price_display`, `image_url`; the numeric sort is used for ordering and
the category minimum but is not emitted on items. -/
theorem item_object_fields_amended :
    (∀ (rows : List Row) (now : String) (m : Menu),
      build_menu rows now = .ok m → m.categories = buildCategories rows) ∧
    (∀ rows : List Row, ∀ c ∈ buildCategories rows, ∀ it ∈ c.items,
      keysOf (itemJson it) = ["name", "description", "price_display", "image_url"]) := by
  constructor
  · intro rows now m hm
    unfold build_menu at hm
    cases hv : validate_headers rows with
    | none => rw [hv] at hm; cases hm; rfl
    | some e => rw [hv] at hm; cases hm
  · intro rows c hc it hit
    rfl

/-- Witness for the amended C3 at a concrete built category. -/
theorem item_object_fields_amended_witness :
    keysOf (itemJson ⟨"Tea", "", "5", ""⟩) =
      ["name", "description", "price_display", "image_url"] :=
  item_object_fields_amended.2 [mkRow "Drinks" "Tea" "5" "" "" "1" ""]
    ⟨"Drinks", .float 1, [⟨"Tea", "", "5", ""⟩]⟩
    (by decide) _ (by decide)

/-- C9 counterexample: a raw price of `" 5 "` is emitted as `"5"` —
the value is stripped, not carried verbatim. -/
theorem price_display_not_verbatim_cex :
    ((build_menu [priceRow] "2024-01-01T00:00:00+00:00").toOption.map
      (fun m => m.categories.map (fun c => c.items.map (fun it => it.price_display)))) =
      some [["5"]] ∧
    priceRow.get "price" (.str "") = .str " 5 " ∧
    ("5" : String) ≠ " 5 " := by
  exact ⟨by decide, by decide, by decide⟩

/-- C9 amended: for every accepted row, `price_display` is the `str()`
form of the raw price trimmed of leading and trailing whitespace — a
contiguous piece of the raw string when the cell is a string — with no
numeric parsing and no currency validation. -/
theorem price_display_amended :
    ∀ (r : Row) (it : RawItem), rowAccept r = some it →
      it.price_display = pyStrip (pyStr (r.get "price" (.str ""))) ∧
      (∀ s, r.get "price" (.str "") = .str s →
        List.IsInfix it.price_display.data s.data) := by
  intro r it h
  unfold rowAccept at h
  split at h
  · exact absurd h (by simp)
  · split at h
    · exact absurd h (by simp)
    · have he := Option.some.inj h
      subst he
      refine ⟨rfl, ?_⟩
      intro s hs
      rw [hs]
      exact pyStrip_isInfix s

/-- Witness for the amended C9 at the concrete row with price
`" 5 "`. -/
theorem price_display_amended_witness :
    List.IsInfix ("5".data) (" 5 ".data) :=
  (price_display_amended priceRow
    ⟨"Drinks", "Tea", "", "5", "", .float 1⟩
    (by decide)).2 " 5 " (by decide)

/-- Inversion of a successful `build_menu`: the produced document
carries the given timestamp, the aggregated categories, and the hash of
the `generated_at`/`categories` payload. -/
theorem build_menu_ok_inv (rows : List Row) (now : String) (m : Menu)
    (hm : build_menu rows now = .ok m) :
    m.generated_at = now ∧ m.categories = buildCategories rows ∧
      m.hash = stable_hash (menuJsonNoHash now m.categories) := by
  unfold build_menu at hm
  cases hv : validate_headers rows with
  | none => rw [hv] at hm; cases hm; exact ⟨rfl, rfl, rfl⟩
  | some e => rw [hv] at hm; cases hm

/-- C1 counterexample: two documents built from identical row data
(the empty row list) but different `generated_at` timestamps have
different hash values — the fingerprint is not stable across runs with
identical data, because `build_menu` hashes the document including
`generated_at`. -/
theorem hash_differs_across_timestamps_cex :
    ((build_menu [] "2024-01-01T00:00:00+00:00").toOption.map Menu.hash) ≠
      ((build_menu [] "2024-01-01T00:00:01+00:00").toOption.map Menu.hash) ∧
    ("2024-01-01T00:00:00+00:00" : String) ≠ "2024-01-01T00:00:01+00:00" := by
  exact ⟨by decide, by decide⟩

/-- C1 amended: the document fingerprint is a pure deterministic
function of the `generated_at` timestamp together with the categories —
`generated_at` is included, not excluded, so two builds agree on the
hash exactly when they agree on both; the fingerprint is not stable
across runs whose timestamps differ. -/
theorem hash_function_of_timestamp_and_categories :
    (∀ (rows rows' : List Row) (now : String) (m m' : Menu),
      build_menu rows now = .ok m → build_menu rows' now = .ok m' →
      m.categories = m'.categories → m.hash = m'.hash) ∧
    (∀ (rows : List Row) (now : String) (m : Menu), build_menu rows now = .ok m →
      m.hash = stable_hash (menuJsonNoHash now m.categories)) := by
  refine ⟨?_, fun rows now m hm => (build_menu_ok_inv rows now m hm).2.2⟩
  intro rows rows' now m m' hm hm' hcats
  rw [(build_menu_ok_inv rows now m hm).2.2,
    (build_menu_ok_inv rows' now m' hm').2.2, hcats]

/-- Witness for the amended C1: the empty row list and a list holding
one rejected row build the same categories under the same timestamp,
hence the same hash. -/
theorem hash_function_witness :
    (Menu.mk "2024-01-01T00:00:00+00:00" []
      (stable_hash (menuJsonNoHash "2024-01-01T00:00:00+00:00" []))).hash =
    stable_hash (menuJsonNoHash "2024-01-01T00:00:00+00:00"
      (Menu.mk "2024-01-01T00:00:00+00:00" []
        (stable_hash (menuJsonNoHash "2024-01-01T00:00:00+00:00" []))).categories) :=
  hash_function_of_timestamp_and_categories.2 [] "2024-01-01T00:00:00+00:00" _ rfl

/-- C2: `stable_hash` is the hex digest of SHA-256 over the UTF-8
bytes of the canonical serialization; the canonical serialization of an
object lists its members sorted by key (compact separators, no added
whitespace); and `build_menu` applies it to the document whose keys are
exactly `generated_at` and `categories` — including the fresh
timestamp, excluding the `hash` field, which is attached afterwards. -/
theorem stable_hash_spec :
    (∀ o : Json, stable_hash o = hexDigest (sha256 (utf8 (Json.dump o)))) ∧
    (∀ l : List (String × Json),
      Json.dump (.obj l) =
        "\x7b" ++ joinComma ((pySort (fun (a b : String × String) => strLE a.1 b.1)
          (Json.dumpPairs l)).map
            (fun p => jsonStringLit p.1 ++ ":" ++ p.2)) ++ "\x7d" ∧
      (pySort (fun (a b : String × String) => strLE a.1 b.1)
        (Json.dumpPairs l)).Chain'
        (fun (a b : String × String) => strLE a.1 b.1 = true)) ∧
    (∀ (rows : List Row) (now : String) (m : Menu), build_menu rows now = .ok m →
      m.hash = stable_hash (menuJsonNoHash now m.categories) ∧
      keysOf (menuJsonNoHash now m.categories) = ["generated_at", "categories"]) := by
  refine ⟨fun _ => rfl, ?_, ?_⟩
  · intro l
    exact ⟨rfl, chain'_pySort (fun (a b : String × String) => strLE_total a.1 b.1) _⟩
  · intro rows now m hm
    exact ⟨(build_menu_ok_inv rows now m hm).2.2, rfl⟩

/-- Witness for C2 at the concrete empty document. -/
theorem stable_hash_spec_witness :
    keysOf (menuJsonNoHash "2024-01-01T00:00:00+00:00" []) =
      ["generated_at", "categories"] :=
  (stable_hash_spec.2.2 [] "2024-01-01T00:00:00+00:00" _ rfl).2

/-- C5: the category list of the built document is sorted by the
composite key (sort, lowercased name); every category arises from a
nonempty same-category group whose items are sorted by the composite
key and projected to item objects, with the category sort attained as
the minimum of the group's sorts; and concretely: sorts `[2, 1, 1]`
with names `["B", "A", "C"]` order as `A, C, B` with category sort 1,
a genuine key tie preserves row order (stability), and categories
differing only in case form distinct groups in first-seen order. -/
theorem ordering_spec :
    (∀ rows : List Row,
      (buildCategories rows).Chain' (fun a b => catLE a b = true)) ∧
    (∀ (rows : List Row) (c : Category), c ∈ buildCategories rows →
      ∃ raws : List RawItem,
        raws ≠ [] ∧
        raws.Chain' (fun a b => itemLE a b = true) ∧
        c.items = raws.map project ∧
        (∀ x ∈ raws, x.category = c.name) ∧
        (∀ x ∈ raws, c.sort.val ≤ x.sort.val) ∧
        c.sort ∈ raws.map (fun x => x.sort)) ∧
    ((buildCategories exampleRows).map
        (fun c => (c.name, c.sort, c.items.map (fun it => it.name))) =
      [("Drinks", PyNum.float 1, ["A", "C", "B"])]) ∧
    ((buildCategories tieRows).map
        (fun c => c.items.map (fun it => (it.name, it.description))) =
      [[("a", "first"), ("A", "second")]]) ∧
    ((buildCategories caseRows).map (fun c => c.name) = ["b", "B"]) := by
  refine ⟨?_, ?_, by decide, by decide, by decide⟩
  · intro rows
    exact chain'_pySort catLE_total _
  · intro rows c hc
    unfold buildCategories at hc
    rw [mem_pySort, List.mem_map] at hc
    obtain ⟨g, hg, rfl⟩ := hc
    have hinv := grouped_inv (acceptedItems rows) g hg
    refine ⟨pySort itemLE g.2, ?_, chain'_pySort itemLE_total _, rfl, ?_, ?_, ?_⟩
    · intro hnil
      have hlen := @length_pySort _ itemLE g.2
      rw [hnil] at hlen
      exact hinv.1 (List.length_eq_zero.mp hlen.symm)
    · intro x hx
      exact hinv.2 x ((mem_pySort x g.2).mp hx)
    · intro x hx
      cases hr : pySort itemLE g.2 with
      | nil => rw [hr] at hx; cases hx
      | cons y ys =>
        have hx2 : x ∈ y :: ys := hr ▸ hx
        have hmem : x.sort ∈ y.sort :: ys.map (fun z : RawItem => z.sort) := by
          rcases List.mem_cons.mp hx2 with rfl | h
          · exact List.mem_cons_self _ _
          · exact List.mem_cons_of_mem _ (List.mem_map_of_mem _ h)
        show (pyMin (.int 0)
            ((y :: ys).map (fun z : RawItem => z.sort))).val ≤ x.sort.val
        simp only [List.map_cons]
        exact pyMin_le _ _ _ _ hmem
    · cases hr : pySort itemLE g.2 with
      | nil =>
        exfalso
        have hlen := @length_pySort _ itemLE g.2
        rw [hr] at hlen
        exact hinv.1 (List.length_eq_zero.mp hlen.symm)
      | cons y ys =>
        show pyMin (.int 0)
            ((y :: ys).map (fun z : RawItem => z.sort)) ∈
          (y :: ys).map (fun z : RawItem => z.sort)
        simp only [List.map_cons]
        exact pyMin_mem _ _ _

/-- Witness for C5 at the concrete example group. -/
theorem ordering_spec_witness :
    ∃ raws : List RawItem,
      raws ≠ [] ∧
      raws.Chain' (fun a b => itemLE a b = true) ∧
      (⟨"Drinks", PyNum.float 1,
        [⟨"A", "", "1", ""⟩, ⟨"C", "", "3", ""⟩, ⟨"B", "", "2", ""⟩]⟩ :
          Category).items = raws.map project ∧
      (∀ x ∈ raws, x.category = (⟨"Drinks", PyNum.float 1,
        [⟨"A", "", "1", ""⟩, ⟨"C", "", "3", ""⟩, ⟨"B", "", "2", ""⟩]⟩ :
          Category).name) ∧
      (∀ x ∈ raws, (PyNum.float 1).val ≤ x.sort.val) ∧
      (PyNum.float 1) ∈ raws.map (fun x => x.sort) :=
  ordering_spec.2.1 exampleRows
    ⟨"Drinks", PyNum.float 1,
      [⟨"A", "", "1", ""⟩, ⟨"C", "", "3", ""⟩, ⟨"B", "", "2", ""⟩]⟩
    (by decide)

/-- C6: `load_existing_hash` treats a missing, unreadable, or
malformed latest-state file as an absent fingerprint (it is total, so
it never fails); the stored-fingerprint comparison succeeds exactly on
an equal string; on a match `write_outputs` writes no files and reports
a no-op; otherwise it overwrites the latest-state file and, for a fresh
timestamp, prepends exactly one new snapshot, reporting a change. -/
theorem write_outputs_transition_spec :
    (load_existing_hash .missing = Option.none ∧
     load_existing_hash .unreadable = Option.none ∧
     load_existing_hash .malformed = Option.none) ∧
    (∀ (old : Option Json) (h : String),
      hashMatches old h = true ↔ old = some (.str h)) ∧
    (∀ (fs : FS) (m : Menu) (ts : String),
      load_existing_hash fs.latest = some (.str m.hash) →
      write_outputs fs m ts =
        ({ fs with outDirExists := true, snapDirExists := true }, false)) ∧
    (∀ (fs : FS) (m : Menu) (ts : String),
      load_existing_hash fs.latest ≠ some (.str m.hash) →
      (∀ p ∈ fs.snapshots, p.1 ≠ ts ++ ".json") →
      write_outputs fs m ts =
        ({ outDirExists := true, snapDirExists := true,
           latest := .content (menuJsonFull m),
           snapshots := (ts ++ ".json", menuJsonFull m) :: fs.snapshots }, true)) := by
  refine ⟨⟨rfl, rfl, rfl⟩, hashMatches_iff, ?_, ?_⟩
  · intro fs m ts h
    have hm : hashMatches (load_existing_hash fs.latest) m.hash = true :=
      (hashMatches_iff _ _).mpr h
    unfold write_outputs
    dsimp only
    rw [hm]
    rfl
  · intro fs m ts h hfresh
    have hm : hashMatches (load_existing_hash fs.latest) m.hash = false := by
      rw [Bool.eq_false_iff]
      intro hc
      exact h ((hashMatches_iff _ _).mp hc)
    unfold write_outputs
    dsimp only
    rw [hm]
    simp only [Bool.false_eq_true, if_false]
    have hfil : fs.snapshots.filter (fun p => p.1 ≠ ts ++ ".json") = fs.snapshots := by
      rw [List.filter_eq_self]
      intro p hp
      exact decide_eq_true (hfresh p hp)
    unfold writeSnap
    rw [hfil]

/-- Witness for C6: a stored equal fingerprint yields a no-op, an
absent latest-state file yields a changed run. -/
theorem write_outputs_transition_spec_witness :
    (write_outputs ⟨false, false, .content (.obj [("hash", .str "h")]), []⟩
      ⟨"t", [], "h"⟩ "T").2 = false ∧
    (write_outputs ⟨false, false, .missing, []⟩ ⟨"t", [], "h"⟩ "T").2 = true := by
  constructor
  · rw [write_outputs_transition_spec.2.2.1
      ⟨false, false, .content (.obj [("hash", .str "h")]), []⟩ ⟨"t", [], "h"⟩ "T" rfl]
  · rw [write_outputs_transition_spec.2.2.2
      ⟨false, false, .missing, []⟩ ⟨"t", [], "h"⟩ "T"
      (fun hc => Option.noConfusion hc) (fun p hp => absurd hp (List.not_mem_nil p))]

/-- C7: header validation is skipped for an empty row sequence (the
build then yields a document with zero categories and a valid
64-character hash); for a nonempty sequence it checks only the first
row's key set, reporting every missing required column together with
the full expected list; and a validation failure aborts `build_menu`
with that error before any normalization. -/
theorem header_validation_spec :
    (validate_headers [] = Option.none) ∧
    (∀ now : String, build_menu [] now =
      .ok ⟨now, [], stable_hash (menuJsonNoHash now [])⟩ ∧
      buildCategories [] = [] ∧
      (stable_hash (menuJsonNoHash now [])).length = 64) ∧
    (∀ (r : Row) (rs : List Row) (e : SchemaError),
      validate_headers (r :: rs) = some e →
      e.expected = REQUIRED_HEADERS ∧
      (∀ h, h ∈ e.missing ↔ h ∈ REQUIRED_HEADERS ∧ r.hasKey h = false)) ∧
    (∀ (r : Row) (rs : List Row),
      validate_headers (r :: rs) = Option.none ↔
        ∀ h ∈ REQUIRED_HEADERS, r.hasKey h = true) ∧
    (∀ (rows : List Row) (now : String) (e : SchemaError),
      validate_headers rows = some e → build_menu rows now = .error e) := by
  refine ⟨rfl, ?_, ?_, ?_, ?_⟩
  · intro now
    exact ⟨rfl, rfl, by rw [stable_hash_length]⟩
  · intro r rs e he
    unfold validate_headers at he
    dsimp only at he
    by_cases hm : REQUIRED_HEADERS.filter (fun h => !r.hasKey h) = []
    · rw [if_pos hm] at he
      cases he
    · rw [if_neg hm] at he
      cases he
      refine ⟨rfl, ?_⟩
      intro h
      rw [List.mem_filter]
      simp [Bool.not_eq_true']
  · intro r rs
    unfold validate_headers
    dsimp only
    by_cases hm : REQUIRED_HEADERS.filter (fun h => !r.hasKey h) = []
    · rw [if_pos hm]
      simp only [true_iff]
      intro h hh
      rw [List.filter_eq_nil] at hm
      simpa using hm h hh
    · rw [if_neg hm]
      constructor
      · intro hc
        cases hc
      · intro hall
        exfalso
        apply hm
        rw [List.filter_eq_nil]
        intro h hh
        simp [hall h hh]
  · intro rows now e he
    unfold build_menu
    rw [he]

/-- Witness for C7: a first row holding only a `category` key is
missing the other six required columns, and the build aborts with that
error. -/
theorem header_validation_spec_witness :
    ("price" ∈ REQUIRED_HEADERS ∧
      Row.hasKey [("category", PyVal.str "c")] "price" = false) ∧
    build_menu [[("category", PyVal.str "c")]] "t" =
      .error ⟨["item", "price", "description", "available", "sort", "image_url"],
        REQUIRED_HEADERS⟩ := by
  constructor
  · exact ((header_validation_spec.2.2.1 [("category", PyVal.str "c")] [] _ rfl).2
      "price").mp (by decide)
  · exact header_validation_spec.2.2.2.2 [[("category", PyVal.str "c")]] "t" _ rfl

/-- C10: `write_outputs` creates the output directory and the
snapshots directory before the fingerprint comparison, so both exist in
the resulting state on every run — including an unchanged no-op run
that writes no files. -/
theorem dirs_created_even_on_noop :
    ∀ (fs : FS) (m : Menu) (ts : String),
      (write_outputs fs m ts).1.outDirExists = true ∧
      (write_outputs fs m ts).1.snapDirExists = true := by
  intro fs m ts
  unfold write_outputs
  dsimp only
  split
  · exact ⟨rfl, rfl⟩
  · exact ⟨rfl, rfl⟩

end ExportMenu
